import Mathlib

/-!
Verification of the core pipeline of the `circle-city-maps` repository:
polygon stitching (`src/modules/overpass.py`), adjacency resolution and
graph coloring (`src/modules/city_map.py`), and feature extraction.

The Python source is shallowly embedded: Python floats become exact
rationals (none of the verified properties depend on rounding), Python
object mutation of `color_id` fields becomes an explicit list-of-options
state indexed by the position of each building in the authoritative
collection, and Python's `random.choice` / `random.randint` become an
injected stream of naturals (the value is reduced modulo the number of
candidates, exactly the freedom the source gives the random generator).
Fallible constructors (`OverpassElement.__post__init__` raises
`ValueError`) are embedded in `Except String`.
-/

namespace CircleCityMaps

/-- A node returned by Overpass (`overpass.py`, class `Node`).
Latitude and longitude are embedded as exact rationals. -/
structure Node where
  lat : ℚ
  lon : ℚ
  node_id : ℕ
  deriving DecidableEq, Repr

instance : Inhabited Node := ⟨⟨0, 0, 0⟩⟩

/-- Embeds `Node.__eq__`: two nodes are equal iff they have the same `node_id`
(the isinstance guard always passes on the inputs we model). -/
def sameNode (a b : Node) : Bool := a.node_id == b.node_id

/-- Bounding box `(min lat, min lon, max lat, max lon)`; the source uses a
4-tuple indexed `[0] … [3]`, embedded here as fields `b0 … b3`. -/
structure BBox where
  b0 : ℚ
  b1 : ℚ
  b2 : ℚ
  b3 : ℚ
  deriving DecidableEq, Repr

/-- Role of a way inside a relation (`overpass.py`, enum `Role`). -/
inductive Role where
  | inner
  | outer
  | outline
  deriving DecidableEq, Repr, BEq

/-- A way returned by Overpass (`overpass.py`, class `Way`). -/
structure Way where
  nodes : List Node
  boundingbox : BBox
  way_id : ℕ
  role : Role
  deriving DecidableEq, Repr

/-- A relation returned by Overpass (`overpass.py`, class `Relation`). -/
structure Relation where
  ways : List Way
  relation_id : ℕ
  deriving DecidableEq, Repr

/-- Embeds `Relation.outer_ways`: member ways whose role is OUTER or OUTLINE. -/
def Relation.outer_ways (r : Relation) : List Way :=
  r.ways.filter (fun w => w.role == Role.outer || w.role == Role.outline)

/-- Embeds `Relation.inner_ways`: member ways whose role is INNER. -/
def Relation.inner_ways (r : Relation) : List Way :=
  r.ways.filter (fun w => w.role == Role.inner)

/-- Embeds `Overpass._combinePolygons(p1, p2)`: joins `p2` onto the accumulator
`p1` by the four endpoint-match cases, returning `none` where the source
returns Python `None`.  The source indexes `p1[0]`, `p1[-1]`, `p2[0]`,
`p2[-1]` and therefore raises `IndexError` when either list is empty; it
is only ever called with a non-empty `p1`, and every theorem below that
could reach this function with an empty `p2` carries a non-emptiness
hypothesis, so the catch-all `none` branch is unreachable in all proved
statements. -/
def combinePolygons (p1 p2 : List Node) : Option (List Node) :=
  match p1, p2 with
  | a :: as, b :: bs =>
    let aLast := (a :: as).getLastD a
    let bLast := (b :: bs).getLastD b
    if sameNode a b then some (p2.reverse ++ p1)
    else if sameNode a bLast then some (p2 ++ p1)
    else if sameNode aLast b then some (p1 ++ p2)
    else if sameNode aLast bLast then some (p1 ++ p2.reverse)
    else none
  | _, _ => none

/-- The loop body of `Overpass._buildPolygons`: `acc` is `new_polygon`,
the returned list is `polygons` (flushed accumulators in flush order,
with the final non-empty accumulator flushed at the end).  A successful
combination result is always non-empty (it contains the non-empty
accumulator), so Python's truthiness test `if combined:` coincides with
the `some`/`none` distinction. -/
def buildPolygonsGo : List Node → List Way → List (List Node)
  | acc, [] => if acc.isEmpty then [] else [acc]
  | acc, w :: ws =>
    if acc.isEmpty then buildPolygonsGo (acc ++ w.nodes) ws
    else
      match combinePolygons acc w.nodes with
      | some c => buildPolygonsGo c ws
      | none => acc :: buildPolygonsGo w.nodes ws

/-- Embeds `Overpass._buildPolygons(ways)`: stitch a list of ways into polylines. -/
def buildPolygons (ways : List Way) : List (List Node) :=
  buildPolygonsGo [] ways

/-- Proof-side helper: repeatedly combine the fragments of `ws` onto the
accumulator, failing as soon as one fragment does not endpoint-match.
`combineAll acc ws = some p` says the fragments arrive in a
stitching-compatible order. -/
def combineAll : List Node → List Way → Option (List Node)
  | acc, [] => some acc
  | acc, w :: ws =>
    match combinePolygons acc w.nodes with
    | some c => combineAll c ws
    | none => none

theorem combinePolygons_perm {p1 p2 r : List Node}
    (h : combinePolygons p1 p2 = some r) : r.Perm (p1 ++ p2) := by
  match p1, p2 with
  | [], _ => simp [combinePolygons] at h
  | _ :: _, [] => simp [combinePolygons] at h
  | a :: as, b :: bs =>
    simp only [combinePolygons] at h
    split_ifs at h <;> simp only [Option.some.injEq] at h <;> subst h
    · exact ((b :: bs).reverse_perm.append_right (a :: as)).trans List.perm_append_comm
    · exact List.perm_append_comm
    · exact List.Perm.refl _
    · exact ((b :: bs).reverse_perm).append_left (a :: as)

theorem combinePolygons_length {p1 p2 r : List Node}
    (h : combinePolygons p1 p2 = some r) : r.length = p1.length + p2.length := by
  have := (combinePolygons_perm h).length_eq
  simpa [List.length_append] using this

theorem combinePolygons_ne_nil {p1 p2 r : List Node} (h1 : p1 ≠ [])
    (h : combinePolygons p1 p2 = some r) : r ≠ [] := by
  intro hr
  subst hr
  have hlen := combinePolygons_length h
  simp only [List.length_nil] at hlen
  have h0 : p1.length = 0 := by omega
  exact h1 (List.length_eq_zero.mp h0)

theorem buildPolygonsGo_sum_length :
    ∀ (ways : List Way) (acc : List Node),
      ((buildPolygonsGo acc ways).map List.length).sum
        = acc.length + (ways.map (fun w => w.nodes.length)).sum := by
  intro ways
  induction ways with
  | nil =>
    intro acc
    by_cases h : acc.isEmpty <;>
      simp_all [buildPolygonsGo, List.isEmpty_iff]
  | cons w ws ih =>
    intro acc
    by_cases h : acc.isEmpty
    · have : acc = [] := List.isEmpty_iff.mp h
      subst this
      simp [buildPolygonsGo, ih]
    · rcases hc : combinePolygons acc w.nodes with _ | c
      · simp [buildPolygonsGo, h, hc, ih]
      · simp [buildPolygonsGo, h, hc, ih, combinePolygons_length hc]
        omega

theorem buildPolygonsGo_ne_nil :
    ∀ (ways : List Way) (acc : List Node) (p : List Node),
      p ∈ buildPolygonsGo acc ways → p ≠ [] := by
  intro ways
  induction ways with
  | nil =>
    intro acc p hp
    by_cases h : acc.isEmpty <;> simp_all [buildPolygonsGo]
  | cons w ws ih =>
    intro acc p hp
    by_cases h : acc.isEmpty
    · rw [buildPolygonsGo, if_pos h] at hp
      exact ih _ _ hp
    · rw [buildPolygonsGo, if_neg h] at hp
      rcases hc : combinePolygons acc w.nodes with _ | c <;> rw [hc] at hp
      · rcases List.mem_cons.mp hp with rfl | hp
        · simpa [List.isEmpty_iff] using h
        · exact ih _ _ hp
      · exact ih _ _ hp

theorem combineAll_buildGo :
    ∀ (ws : List Way) (acc p : List Node), acc ≠ [] →
      combineAll acc ws = some p →
      buildPolygonsGo acc ws = [p]
        ∧ p.Perm (acc ++ (ws.map (fun w => w.nodes)).flatten) := by
  intro ws
  induction ws with
  | nil =>
    intro acc p hacc h
    simp only [combineAll, Option.some.injEq] at h
    subst h
    simp [buildPolygonsGo, List.isEmpty_iff, hacc]
  | cons w ws ih =>
    intro acc p hacc h
    simp only [combineAll] at h
    rcases hc : combinePolygons acc w.nodes with _ | c <;> rw [hc] at h
    · simp at h
    · have hcne : c ≠ [] := combinePolygons_ne_nil hacc hc
      obtain ⟨h1, h2⟩ := ih c p hcne h
      constructor
      · rw [buildPolygonsGo, if_neg (by simpa [List.isEmpty_iff] using hacc), hc]
        exact h1
      · have hstep :=
          (combinePolygons_perm hc).append_right ((ws.map (fun x => x.nodes)).flatten)
        have heq : (acc ++ w.nodes) ++ (ws.map (fun x => x.nodes)).flatten
            = acc ++ ((w :: ws).map (fun x => x.nodes)).flatten := by simp
        exact h2.trans (hstep.trans (heq ▸ List.Perm.refl _))

/-! ### Spec-level description of the stitcher (for the refinement claim C6)

The following definitions are written from the specification text, not
from the source: four endpoint-match cases against the accumulator, flush
on no match and restart with the incoming way, flush any remainder at the
end, empty input gives empty output. -/

/-- Spec wording: one of the four endpoint-match cases applies and the
accumulator is extended accordingly.  `acc` is the accumulator, `nw` the
incoming way's node list, `r` the new accumulator. -/
def SpecCombines (acc nw r : List Node) : Prop :=
  (sameNode nw.headI acc.headI = true ∧ r = nw.reverse ++ acc)
    ∨ (sameNode (nw.getLastD default) acc.headI = true ∧ r = nw ++ acc)
    ∨ (sameNode nw.headI (acc.getLastD default) = true ∧ r = acc ++ nw)
    ∨ (sameNode (nw.getLastD default) (acc.getLastD default) = true
        ∧ r = acc ++ nw.reverse)

/-- Spec wording: none of the four endpoint-match cases applies. -/
def NoEndpointMatch (acc nw : List Node) : Prop :=
  sameNode nw.headI acc.headI = false
    ∧ sameNode (nw.getLastD default) acc.headI = false
    ∧ sameNode nw.headI (acc.getLastD default) = false
    ∧ sameNode (nw.getLastD default) (acc.getLastD default) = false

/-- Spec-level stitching machine: `SpecStitch acc ways out` says that
starting from accumulator `acc` and processing `ways` according to the
claim's description (four endpoint-match cases; on no match flush the
accumulator and restart with the incoming way; flush any remainder at the
end; an empty run yields an empty output) can produce the output `out`. -/
inductive SpecStitch : List Node → List Way → List (List Node) → Prop where
  | nil_empty : SpecStitch [] [] []
  | nil_flush (acc : List Node) (h : acc ≠ []) : SpecStitch acc [] [acc]
  | seed (w : Way) (ws : List Way) (out : List (List Node))
      (h : SpecStitch w.nodes ws out) : SpecStitch [] (w :: ws) out
  | comb (acc : List Node) (w : Way) (ws : List Way) (r : List Node)
      (out : List (List Node)) (hacc : acc ≠ []) (hc : SpecCombines acc w.nodes r)
      (h : SpecStitch r ws out) : SpecStitch acc (w :: ws) out
  | flush (acc : List Node) (w : Way) (ws : List Way) (out : List (List Node))
      (hacc : acc ≠ []) (hn : NoEndpointMatch acc w.nodes)
      (h : SpecStitch w.nodes ws out) : SpecStitch acc (w :: ws) (acc :: out)

theorem combinePolygons_some_spec {acc nw r : List Node} (hacc : acc ≠ [])
    (hnw : nw ≠ []) (h : combinePolygons acc nw = some r) :
    SpecCombines acc nw r := by
  match acc, nw with
  | [], _ => exact absurd rfl hacc
  | _ :: _, [] => exact absurd rfl hnw
  | a :: as, b :: bs =>
    simp only [combinePolygons] at h
    split_ifs at h with h1 h2 h3 h4 <;> simp only [Option.some.injEq] at h <;>
      subst h <;> unfold SpecCombines <;>
      simp_all [List.headI, List.getLastD_eq_getLast?, List.getLast?_eq_getLast,
        sameNode]

theorem combinePolygons_none_spec {acc nw : List Node} (hacc : acc ≠ [])
    (hnw : nw ≠ []) (h : combinePolygons acc nw = none) :
    NoEndpointMatch acc nw := by
  match acc, nw with
  | [], _ => exact absurd rfl hacc
  | _ :: _, [] => exact absurd rfl hnw
  | a :: as, b :: bs =>
    simp only [combinePolygons] at h
    split_ifs at h with h1 h2 h3 h4
    unfold NoEndpointMatch
    simp_all [List.headI, List.getLastD_eq_getLast?, List.getLast?_eq_getLast,
      sameNode]
    omega

theorem buildPolygonsGo_specStitch :
    ∀ (ways : List Way) (acc : List Node), (∀ w ∈ ways, w.nodes ≠ []) →
      SpecStitch acc ways (buildPolygonsGo acc ways) := by
  intro ways
  induction ways with
  | nil =>
    intro acc _
    by_cases h : acc.isEmpty
    · have : acc = [] := List.isEmpty_iff.mp h
      subst this
      exact (by simpa [buildPolygonsGo] using SpecStitch.nil_empty)
    · have hne : acc ≠ [] := by simpa [List.isEmpty_iff] using h
      simpa [buildPolygonsGo, List.isEmpty_iff, hne] using SpecStitch.nil_flush acc hne
  | cons w ws ih =>
    intro acc hnodes
    have hw : w.nodes ≠ [] := hnodes w (by simp)
    have hws : ∀ x ∈ ws, x.nodes ≠ [] := fun x hx => hnodes x (by simp [hx])
    by_cases h : acc.isEmpty
    · have hacc : acc = [] := List.isEmpty_iff.mp h
      subst hacc
      have hgo : buildPolygonsGo [] (w :: ws) = buildPolygonsGo w.nodes ws := by
        simp [buildPolygonsGo]
      rw [hgo]
      exact SpecStitch.seed w ws _ (ih w.nodes hws)
    · have hne : acc ≠ [] := by simpa [List.isEmpty_iff] using h
      rw [buildPolygonsGo, if_neg h]
      rcases hc : combinePolygons acc w.nodes with _ | c
      · exact SpecStitch.flush acc w ws _ hne
          (combinePolygons_none_spec hne hw hc) (ih w.nodes hws)
      · exact SpecStitch.comb acc w ws c _ hne
          (combinePolygons_some_spec hne hw hc) (ih c hws)

/-- Helper used by the concrete stitching examples: a way whose nodes carry
the given ids (coordinates are irrelevant to stitching, which compares
nodes by id only). -/
def wayOfIds (ids : List ℕ) (wid : ℕ) : Way :=
  { nodes := ids.map (fun i => { lat := 0, lon := 0, node_id := i }),
    boundingbox := ⟨0, 0, 0, 0⟩, way_id := wid, role := Role.outer }

/-- The closed ring 1–2–3–4–1 split into its four edges, presented in a
scrambled order: the second fragment does not touch the first. -/
def scrambledRing : List Way :=
  [wayOfIds [1, 2] 1, wayOfIds [3, 4] 2, wayOfIds [2, 3] 3, wayOfIds [4, 1] 4]

/-- The same four fragments of the ring 1–2–3–4–1, presented consecutively
along the ring. -/
def chainRest : List Way :=
  [wayOfIds [2, 3] 3, wayOfIds [3, 4] 2, wayOfIds [4, 1] 4]

/-- The polyline the stitcher produces on the consecutive presentation. -/
def chainResult : List Node :=
  ([4, 1, 1, 2, 2, 3, 3, 4] : List ℕ).map (fun i => { lat := 0, lon := 0, node_id := i })

/-- C5, counterexample: the claim says that a closed ring split into
fragments presented in ARBITRARY order is reconstructed as exactly one
polyline.  The ring 1–2–3–4–1 split into its four (non-empty) edges and
presented in the order `[1,2], [3,4], [2,3], [4,1]` is stitched into TWO
polylines, because the single-pass greedy loop flushes `[1,2]` when the
non-touching fragment `[3,4]` arrives. -/
theorem buildPolygons_scrambled_two_polylines :
    (∀ w ∈ scrambledRing, w.nodes ≠ []) ∧ (buildPolygons scrambledRing).length = 2 := by
  decide

/-- C5, amended: if the fragments of the ring are presented in an order in
which every fragment after the first endpoint-matches the accumulated
polyline (per-fragment direction still arbitrary, which `combineAll`
expresses by succeeding), then the stitcher returns exactly one polyline
whose node-id set is the union of the node-id sets of all fragments. -/
theorem buildPolygons_chain_order (w : Way) (ws : List Way) (p : List Node)
    (hw : w.nodes ≠ []) (h : combineAll w.nodes ws = some p) :
    buildPolygons (w :: ws) = [p]
      ∧ (p.map Node.node_id).toFinset
        = ((((w :: ws).map (fun x => x.nodes)).flatten).map Node.node_id).toFinset := by
  have hgo : buildPolygons (w :: ws) = buildPolygonsGo w.nodes ws := by
    simp [buildPolygons, buildPolygonsGo]
  obtain ⟨h1, h2⟩ := combineAll_buildGo ws w.nodes p hw h
  refine ⟨hgo ▸ h1, ?_⟩
  have hperm := (h2.map Node.node_id)
  have hperm2 : (p.map Node.node_id).Perm
      ((((w :: ws).map (fun x => x.nodes)).flatten).map Node.node_id) := by
    simpa using hperm
  ext x
  simp only [List.mem_toFinset]
  exact hperm2.mem_iff

/-- Witness for the amended C5 at the consecutive presentation of the ring. -/
theorem buildPolygons_chain_order_witness :
    ((wayOfIds [1, 2] 1).nodes ≠ []
        ∧ combineAll (wayOfIds [1, 2] 1).nodes chainRest = some chainResult)
      ∧ buildPolygons (wayOfIds [1, 2] 1 :: chainRest) = [chainResult]
      ∧ (chainResult.map Node.node_id).toFinset
        = ((((wayOfIds [1, 2] 1 :: chainRest).map (fun x => x.nodes)).flatten).map
            Node.node_id).toFinset :=
  ⟨⟨by decide, by decide⟩,
    buildPolygons_chain_order (wayOfIds [1, 2] 1) chainRest chainResult
      (by decide) (by decide)⟩

/-- C6: the stitcher refines the spec-level description: an empty input
list yields an empty output list (and no error), and on every input of
ways with non-empty node lists the computed output is produced by the
spec machine `SpecStitch`, i.e. each incoming way is handled by one of the
four endpoint-match cases (new-first==acc-first: reverse new and prepend;
new-first==acc-last: append; new-last==acc-first: prepend;
new-last==acc-last: reverse new and append), the accumulator is flushed
and restarted on no match, and any remainder is flushed at the end.
(Ways with empty node lists are excluded because on those the source
raises `IndexError` inside `_combinePolygons` rather than stitching.) -/
theorem buildPolygons_refines_spec :
    buildPolygons [] = []
      ∧ ∀ ways : List Way, (∀ w ∈ ways, w.nodes ≠ []) →
          SpecStitch [] ways (buildPolygons ways) :=
  ⟨rfl, fun ways h => buildPolygonsGo_specStitch ways [] h⟩

/-- Witness for C6 at the scrambled presentation (exercises a flush). -/
theorem buildPolygons_refines_spec_witness :
    (∀ w ∈ scrambledRing, w.nodes ≠ [])
      ∧ SpecStitch [] scrambledRing (buildPolygons scrambledRing) :=
  ⟨by decide, buildPolygons_refines_spec.2 scrambledRing (by decide)⟩

/-- C10: node conservation: over ways with non-empty node lists (on an
empty node list the source would raise `IndexError` once the accumulator
is non-empty), the total length of all polylines returned by
`_buildPolygons` equals the total node count of the input ways — the
combination step only concatenates (possibly reversing), so no node is
dropped or deduplicated and a matched joint node appears twice. -/
theorem buildPolygons_node_conservation (ways : List Way)
    (_h : ∀ w ∈ ways, w.nodes ≠ []) :
    ((buildPolygons ways).map List.length).sum
      = (ways.map (fun w => w.nodes.length)).sum := by
  simpa using buildPolygonsGo_sum_length ways []

/-- Witness for C10 at the scrambled ring presentation. -/
theorem buildPolygons_node_conservation_witness :
    (∀ w ∈ scrambledRing, w.nodes ≠ [])
      ∧ ((buildPolygons scrambledRing).map List.length).sum
        = (scrambledRing.map (fun w => w.nodes.length)).sum :=
  ⟨by decide, buildPolygons_node_conservation scrambledRing (by decide)⟩

/-! ### Geometry extractor (`overpass.py`: `OverpassElement`,
`Overpass._queryWayFeature`, `Overpass._queryRelationFeature`) -/

/-- Bounding box computed by `OverpassElement.__post__init__` /
`Way.__post__init__`: min/max of lat and lon over the node list.  The
source calls `min(...)`/`max(...)` on a non-empty list (it raises
`ValueError` on an empty one before reaching this point); the fold seeds
with the head, which agrees with the source on every non-empty list. -/
def computeBBox (nodes : List Node) : BBox :=
  { b0 := (nodes.map Node.lat).foldr min nodes.headI.lat,
    b1 := (nodes.map Node.lon).foldr min nodes.headI.lon,
    b2 := (nodes.map Node.lat).foldr max nodes.headI.lat,
    b3 := (nodes.map Node.lon).foldr max nodes.headI.lon }

/-- An element returned by Overpass (`overpass.py`, class
`OverpassElement`; `Building`, `Road`, `Park` and `Water` add no
structure). -/
structure OverpassElement where
  nodes : List Node
  inner_nodes : List (List Node)
  center : ℚ × ℚ
  boundingbox : BBox
  element_id : ℕ
  deriving DecidableEq, Repr

/-- Construction of an `OverpassElement` through `Data.__init__`, which
invokes `OverpassElement.__post__init__`: raises `ValueError` when the
node list is empty (embedded as `Except.error`; the source interpolates
the subclass name into the message), fills in a missing bounding box from
the nodes, a missing center from the bounding box midpoint, and a missing
inner-node list with `[]`. -/
def overpassElementMk (nodes : List Node) (inner_nodes : Option (List (List Node)))
    (center : Option (ℚ × ℚ)) (boundingbox : Option BBox) (element_id : ℕ) :
    Except String OverpassElement :=
  if nodes.isEmpty then Except.error ("ValueError: OverpassElement has no nodes")
  else
    let bb := match boundingbox with
      | some b => b
      | none => computeBBox nodes
    let c := match center with
      | some c0 => c0
      | none => ((bb.b0 + bb.b2) / 2, (bb.b1 + bb.b3) / 2)
    let inner := match inner_nodes with
      | some l => l
      | none => []
    Except.ok { nodes := nodes, inner_nodes := inner, center := c,
                boundingbox := bb, element_id := element_id }

/-- The feature-construction loop of `Overpass._queryWayFeature` (the
network query and way extraction in front of it are external
collaborators): each way becomes a feature with its own nodes and
bounding box; a raised exception aborts the whole loop. -/
def queryWayFeatures (ways : List Way) : Except String (List OverpassElement) :=
  ways.mapM (fun w => overpassElementMk w.nodes none none (some w.boundingbox) w.way_id)

/-- The feature-construction loop of `Overpass._queryRelationFeature`:
stitch the outer and inner ways, skip the relation if the outer set
stitches to zero polylines, otherwise build the feature from the first
outer polyline; a raised exception aborts the whole loop. -/
def queryRelationFeatures : List Relation → Except String (List OverpassElement)
  | [] => Except.ok []
  | r :: rs =>
    let outer := buildPolygons r.outer_ways
    let inner := buildPolygons r.inner_ways
    if outer.isEmpty then queryRelationFeatures rs
    else
      match overpassElementMk outer.headI (some inner) none none r.relation_id with
      | Except.error e => Except.error e
      | Except.ok f =>
        match queryRelationFeatures rs with
        | Except.error e => Except.error e
        | Except.ok rest => Except.ok (f :: rest)

/-- The element a relation with a non-empty outer stitch produces
(value-level description used to state that the loop never raises). -/
def mkRelationElement (r : Relation) (outerHead : List Node) : OverpassElement :=
  { nodes := outerHead,
    inner_nodes := buildPolygons r.inner_ways,
    boundingbox := computeBBox outerHead,
    center := (((computeBBox outerHead).b0 + (computeBBox outerHead).b2) / 2,
               ((computeBBox outerHead).b1 + (computeBBox outerHead).b3) / 2),
    element_id := r.relation_id }

/-- The element a way with a non-empty node list produces. -/
def mkWayElement (w : Way) : OverpassElement :=
  { nodes := w.nodes,
    inner_nodes := [],
    boundingbox := w.boundingbox,
    center := ((w.boundingbox.b0 + w.boundingbox.b2) / 2,
               (w.boundingbox.b1 + w.boundingbox.b3) / 2),
    element_id := w.way_id }

/-- C7, counterexample: the claim says feature construction from a way
with no resolvable coordinates (empty node list) never throws and merely
drops the feature; in the source `OverpassElement.__post__init__` raises
`ValueError` instead, and `_queryWayFeature` does not catch it. -/
theorem way_feature_empty_nodes_raises :
    queryWayFeatures
        [{ nodes := [], boundingbox := ⟨0, 0, 0, 0⟩, way_id := 7, role := Role.outline }]
      = Except.error ("ValueError: OverpassElement has no nodes") := by
  rfl

/-- C7, amended (claim id C7): for relations all of whose member ways
have non-empty node lists, the relation loop never throws — relations
whose outer ways stitch to zero polylines are dropped, and the loop
returns exactly the features of the relations with a non-empty outer
stitch; for ways the no-throw guarantee likewise only holds when every
way has a non-empty node list.  A way with an empty node list is not
silently dropped: constructing a way feature from it raises `ValueError`
(see the counterexample), and inside a relation the stitcher itself
raises `IndexError` at overpass.py:264 when such a way meets a non-empty
accumulator (the corner the non-emptiness hypotheses fence off, since
the embedded `combinePolygons` is total there). -/
theorem relation_features_never_raise :
    (∀ rels : List Relation, (∀ r ∈ rels, ∀ w ∈ r.ways, w.nodes ≠ []) →
        queryRelationFeatures rels
          = Except.ok (rels.filterMap (fun r =>
              match buildPolygons r.outer_ways with
              | [] => none
              | outerHead :: _ => some (mkRelationElement r outerHead))))
      ∧ ∀ ways : List Way, (∀ w ∈ ways, w.nodes ≠ []) →
          queryWayFeatures ways = Except.ok (ways.map mkWayElement) := by
  constructor
  · intro rels hne
    induction rels with
    | nil => rfl
    | cons r rs ih =>
      have hrs : ∀ x ∈ rs, ∀ w ∈ x.ways, w.nodes ≠ [] :=
        fun x hx => hne x (List.mem_cons_of_mem r hx)
      rcases houter : buildPolygons r.outer_ways with _ | ⟨p, ps⟩
      · rw [queryRelationFeatures]
        simp [houter, ih hrs]
      · have hp : p ≠ [] :=
          buildPolygonsGo_ne_nil r.outer_ways [] p (by rw [← buildPolygons, houter]; simp)
        rw [queryRelationFeatures]
        simp only [houter, List.isEmpty_cons, List.headI_cons, Bool.false_eq_true,
          if_false, List.filterMap_cons]
        have hmk : overpassElementMk p (some (buildPolygons r.inner_ways)) none none
            r.relation_id = Except.ok (mkRelationElement r p) := by
          rw [overpassElementMk, if_neg (by simpa [List.isEmpty_iff] using hp)]
          rfl
        rw [hmk, ih hrs]
  · intro ways hways
    induction ways with
    | nil => rfl
    | cons w ws ih =>
      have hw : w.nodes ≠ [] := hways w (by simp)
      have hmk : overpassElementMk w.nodes none none (some w.boundingbox) w.way_id
          = Except.ok (mkWayElement w) := by
        rw [overpassElementMk, if_neg (by simpa [List.isEmpty_iff] using hw)]
        rfl
      have hrest := ih (fun x hx => hways x (by simp [hx]))
      simp only [queryWayFeatures] at hrest ⊢
      rw [List.mapM_cons, hmk, hrest]
      rfl

/-- A relation whose two outer ways stitch to one closed polyline. -/
def relOuter : Relation :=
  { ways := [wayOfIds [1, 2] 21, wayOfIds [2, 1] 22], relation_id := 31 }

/-- A relation with only an inner-role way: its outer-way set stitches to
zero polylines, so the extractor drops it. -/
def relInnerOnly : Relation :=
  { ways := [{ nodes := [{ lat := 0, lon := 0, node_id := 6 },
                         { lat := 0, lon := 1, node_id := 7 }],
               boundingbox := ⟨0, 0, 0, 1⟩, way_id := 23, role := Role.inner }],
    relation_id := 32 }

/-- Witness for the amended C7: one relation kept, one dropped for
stitching to zero outer polylines, and a one-way input with non-empty
nodes; all member ways have non-empty node lists. -/
theorem relation_features_never_raise_witness :
    ((∀ r ∈ [relOuter, relInnerOnly], ∀ w ∈ r.ways, w.nodes ≠ [])
        ∧ ∀ w ∈ [wayOfIds [1, 2] 9], w.nodes ≠ [])
      ∧ queryRelationFeatures [relOuter, relInnerOnly]
          = Except.ok ([relOuter, relInnerOnly].filterMap (fun r =>
              match buildPolygons r.outer_ways with
              | [] => none
              | outerHead :: _ => some (mkRelationElement r outerHead)))
      ∧ queryWayFeatures [wayOfIds [1, 2] 9]
        = Except.ok ([wayOfIds [1, 2] 9].map mkWayElement) :=
  ⟨⟨by decide, by decide⟩,
    relation_features_never_raise.1 [relOuter, relInnerOnly] (by decide),
    relation_features_never_raise.2 [wayOfIds [1, 2] 9] (by decide)⟩

/-! ### Adjacency resolution (`city_map.py`: `MapBuilding`,
`CityMap._assignNeighbors`) -/

/-- A building in the map (`city_map.py`, class `MapBuilding`).  The
mutable coloring state (`neighbors`, `color_id`, `outline_color_id`) is
represented outside this record: neighbor sets as the output of
`assignNeighbors`, colors as the explicit state threaded through the
colorer below. -/
structure MapBuilding where
  nodes : List Node
  inner_nodes : List (List Node)
  center : ℚ × ℚ
  boundingbox : BBox
  deriving DecidableEq, Repr

/-- The Python set `{node.node_id for node in self.nodes}`. -/
def nodeIds (b : MapBuilding) : Finset ℕ :=
  (b.nodes.map Node.node_id).toFinset

/-- Embeds `MapBuilding.borders`: `False` when the bounding boxes do not overlap,
otherwise true iff the two node-id sets share at least two elements (the
source counts shared ids and returns `True` at two, falling through to an
implicit falsy `None` otherwise). -/
def borders (s o : MapBuilding) : Bool :=
  if s.boundingbox.b0 > o.boundingbox.b2 ∨ s.boundingbox.b2 < o.boundingbox.b0
      ∨ s.boundingbox.b1 > o.boundingbox.b3 ∨ s.boundingbox.b3 < o.boundingbox.b1 then
    false
  else decide (2 ≤ (nodeIds s ∩ nodeIds o).card)

/-- Embeds `MapBuilding.__eq__`: `all([node in other.nodes for node in
self.nodes])` — a subset test on nodes (membership compares by
`node_id`), which is NOT symmetric. -/
def mbEq (s o : MapBuilding) : Bool :=
  s.nodes.all (fun nd => o.nodes.any (fun x => sameNode x nd))

/-- The candidate pre-filter of `_assignNeighbors` (lines 166–174): centers
within the per-axis deltas on both axes. -/
def centerClose (b o : MapBuilding) (dlat dlon : ℚ) : Bool :=
  decide (|b.center.1 - o.center.1| < dlat) && decide (|b.center.2 - o.center.2| < dlon)

/-- The `others` list of `_assignNeighbors`: candidates whose center is
close and which are not `__eq__`-equal to the building. -/
def neighborCandidates (bs : List MapBuilding) (dlat dlon : ℚ) (b : MapBuilding) :
    List MapBuilding :=
  bs.filter (fun o => centerClose b o dlat dlon && !(mbEq b o))

/-- The neighbor set `{other for other in others if
building.borders(other)}` assigned to one building (as a list whose
membership is the Python set membership). -/
def buildingNeighbors (bs : List MapBuilding) (dlat dlon : ℚ) (b : MapBuilding) :
    List MapBuilding :=
  (neighborCandidates bs dlat dlon b).filter (fun o => borders b o)

/-- The per-axis delta `d_lat` of `_assignNeighbors` (the source computes
it in floating point; the verified properties do not depend on its exact
value). -/
def dLat (bbox : BBox) (radius maxDist : ℚ) : ℚ :=
  (bbox.b2 - bbox.b0) / (2 * radius) * maxDist

/-- The per-axis delta `d_lon` of `_assignNeighbors`. -/
def dLon (bbox : BBox) (radius maxDist : ℚ) : ℚ :=
  (bbox.b3 - bbox.b1) / (2 * radius) * maxDist

/-- Embeds `CityMap._assignNeighbors`: every building of the collection gets its
neighbor set (aligned with the input list; the source's `max_dist`
defaults to 50). -/
def assignNeighbors (bs : List MapBuilding) (bbox : BBox) (radius maxDist : ℚ) :
    List (List MapBuilding) :=
  bs.map (fun b =>
    buildingNeighbors bs (dLat bbox radius maxDist) (dLon bbox radius maxDist) b)

theorem centerClose_symm (a b : MapBuilding) (dlat dlon : ℚ) :
    centerClose a b dlat dlon = centerClose b a dlat dlon := by
  unfold centerClose
  rw [abs_sub_comm a.center.1, abs_sub_comm a.center.2]

theorem borders_symm (a b : MapBuilding) : borders a b = borders b a := by
  unfold borders
  have hiff : (a.boundingbox.b0 > b.boundingbox.b2 ∨ a.boundingbox.b2 < b.boundingbox.b0
        ∨ a.boundingbox.b1 > b.boundingbox.b3 ∨ a.boundingbox.b3 < b.boundingbox.b1)
      ↔ (b.boundingbox.b0 > a.boundingbox.b2 ∨ b.boundingbox.b2 < a.boundingbox.b0
        ∨ b.boundingbox.b1 > a.boundingbox.b3 ∨ b.boundingbox.b3 < a.boundingbox.b1) := by
    constructor <;> intro h <;> tauto
  simp only [hiff, Finset.inter_comm]

/-- C1, amended (claim id C1): the neighbor relation produced by
adjacency resolution is symmetric PROVIDED building equality (`__eq__`,
a node-subset test) is symmetric on the collection — for instance when no
building's node-id set is strictly contained in another's.  Without that
proviso the relation need not be symmetric (see the counterexample). -/
theorem assignNeighbors_symmetric (bs : List MapBuilding) (dlat dlon : ℚ)
    (hsym : ∀ a ∈ bs, ∀ b ∈ bs, mbEq a b = mbEq b a) :
    ∀ a ∈ bs, ∀ b ∈ bs,
      (b ∈ buildingNeighbors bs dlat dlon a ↔ a ∈ buildingNeighbors bs dlat dlon b) := by
  intro a ha b hb
  unfold buildingNeighbors neighborCandidates
  simp only [List.mem_filter, List.filter_filter, Bool.and_eq_true, Bool.not_eq_true']
  rw [borders_symm a b, centerClose_symm a b, hsym a ha b hb]
  tauto

/-- The nodes used by the concrete adjacency examples. -/
def exNode (lat lon : ℚ) (i : ℕ) : Node := { lat := lat, lon := lon, node_id := i }

/-- A building whose node-id set `{1, 2, 3}` strictly contains the next
one's. -/
def bigBuilding : MapBuilding :=
  { nodes := [exNode 0 0 1, exNode 0 1 2, exNode 1 0 3], inner_nodes := [],
    center := (1/2, 1/2), boundingbox := ⟨0, 0, 1, 1⟩ }

/-- A building with node-id set `{1, 2}`, a strict subset of
`bigBuilding`'s: `smallBuilding.__eq__(bigBuilding)` is `True` while
`bigBuilding.__eq__(smallBuilding)` is `False`. -/
def smallBuilding : MapBuilding :=
  { nodes := [exNode 0 0 1, exNode 0 1 2], inner_nodes := [],
    center := (0, 1/2), boundingbox := ⟨0, 0, 0, 1⟩ }

/-- The two-building collection of the asymmetry counterexample. -/
def examplePair : List MapBuilding := [bigBuilding, smallBuilding]

/-- C1, counterexample: after `_assignNeighbors` (deltas computed from the
aggregate bounding box `(0,0,1,1)`, radius 25 and `max_dist` 50, giving
`d_lat = d_lon = 1`), `smallBuilding` is in `bigBuilding`'s neighbor set
but not conversely: the asymmetric `__eq__` subset test removes
`bigBuilding` from `smallBuilding`'s candidate list only. -/
theorem assignNeighbors_asymmetric_pair :
    assignNeighbors examplePair ⟨0, 0, 1, 1⟩ 25 50
        = [buildingNeighbors examplePair 1 1 bigBuilding,
           buildingNeighbors examplePair 1 1 smallBuilding]
      ∧ smallBuilding ∈ buildingNeighbors examplePair 1 1 bigBuilding
      ∧ bigBuilding ∉ buildingNeighbors examplePair 1 1 smallBuilding := by
  have hd : dLat ⟨0, 0, 1, 1⟩ 25 50 = 1 := by norm_num [dLat]
  have hd2 : dLon ⟨0, 0, 1, 1⟩ 25 50 = 1 := by norm_num [dLon]
  refine ⟨by simp [assignNeighbors, examplePair, hd, hd2], ?_, ?_⟩
  · rw [buildingNeighbors, neighborCandidates]
    simp only [List.mem_filter, examplePair, List.mem_cons, List.not_mem_nil, or_false]
    have h1 : centerClose bigBuilding smallBuilding 1 1 = true := by
      norm_num [centerClose, bigBuilding, smallBuilding, abs_lt]
    have h2 : mbEq bigBuilding smallBuilding = false := by decide
    have h3 : borders bigBuilding smallBuilding = true := by
      rw [borders, if_neg (by norm_num [bigBuilding, smallBuilding])]
      decide
    simp [h1, h2, h3]
  · rw [buildingNeighbors, neighborCandidates]
    simp only [List.mem_filter, examplePair, List.mem_cons, List.not_mem_nil, or_false]
    rintro ⟨⟨hmem, hp⟩, hq⟩
    have h2 : mbEq smallBuilding bigBuilding = true := by decide
    simp [h2] at hp

/-- A building sharing exactly the two nodes `{1, 2}` with `symBuildingB`,
with a private third node `4`. -/
def symBuildingA : MapBuilding :=
  { nodes := [exNode 0 0 1, exNode 0 1 2, exNode 1 0 4], inner_nodes := [],
    center := (0, 0), boundingbox := ⟨0, 0, 1, 1⟩ }

/-- A building sharing exactly the two nodes `{1, 2}` with `symBuildingA`,
with a private third node `5`; neither node set contains the other. -/
def symBuildingB : MapBuilding :=
  { nodes := [exNode 0 0 1, exNode 0 1 2, exNode 1 1 5], inner_nodes := [],
    center := (0, 0), boundingbox := ⟨0, 0, 1, 1⟩ }

/-- The two-building collection on which `__eq__` is symmetric. -/
def symPair : List MapBuilding := [symBuildingA, symBuildingB]

/-- Witness for the amended C1: two buildings sharing exactly two nodes,
neither a node-subset of the other; equality is symmetric on the pair and
the neighbor relation is symmetric. -/
theorem assignNeighbors_symmetric_witness :
    (∀ a ∈ symPair, ∀ b ∈ symPair, mbEq a b = mbEq b a)
      ∧ ∀ a ∈ symPair, ∀ b ∈ symPair,
          (b ∈ buildingNeighbors symPair 1 1 a ↔ a ∈ buildingNeighbors symPair 1 1 b) :=
  ⟨by decide, assignNeighbors_symmetric symPair 1 1 (by decide)⟩

/-- C9: adjacency resolution is order-independent: on a permutation of
the building collection every building receives exactly the same neighbor
set (same members, hence the same Python set), because each neighbor set
is a pure filter of the collection by a predicate of the two buildings
alone. -/
theorem assignNeighbors_perm_invariant (bs bs2 : List MapBuilding) (dlat dlon : ℚ)
    (hperm : bs.Perm bs2) :
    ∀ b v : MapBuilding,
      (v ∈ buildingNeighbors bs dlat dlon b ↔ v ∈ buildingNeighbors bs2 dlat dlon b) := by
  intro b v
  unfold buildingNeighbors neighborCandidates
  exact ((hperm.filter _).filter _).mem_iff

/-- Witness for C9 at the swapped two-building collection. -/
theorem assignNeighbors_perm_invariant_witness :
    examplePair.Perm [smallBuilding, bigBuilding]
      ∧ ∀ b v : MapBuilding,
        (v ∈ buildingNeighbors examplePair 1 1 b
          ↔ v ∈ buildingNeighbors [smallBuilding, bigBuilding] 1 1 b) :=
  ⟨by simpa [examplePair] using List.Perm.swap smallBuilding bigBuilding [],
    assignNeighbors_perm_invariant examplePair [smallBuilding, bigBuilding] 1 1
      (by simpa [examplePair] using List.Perm.swap smallBuilding bigBuilding [])⟩

/-! ### Graph coloring (`city_map.py`: `CityMap._assignColors`,
`CityMap._pickBuildingsColors`, `CityMap._drawBuildings`)

Buildings are identified with their index in the authoritative collection
`self._buildings`; the mutable `color_id` fields become one explicit
state `colors : List (Option ℕ)` indexed by building, so that reading a
neighbor's `color_id` through the shared reference is reading the current
state.  The adjacency `adj : ℕ → List ℕ` lists the indices in each
building's `neighbors` set.  `random.choice` receives an injected natural
per call, reduced modulo the number of candidates. -/

/-- Modelled from the spec: `StyleFactory.palette_length`, referenced at
`city_map.py:279` and `city_map.py:441`, is defined nowhere under `src/`
(only its callers are present); per the spec (§6, Style lookup) it is the
common length of every style's building fill palette, which has at least
4 entries.  The embedding takes it as the length of the fill palette
list. -/
def palette_length (buildings_fill : List String) : ℕ := buildings_fill.length

/-- Modelled from the spec: `building.copy()` at `city_map.py:294` — class
`Data` declares no `copy` method anywhere under `src/`, only this caller
is present; per the spec (§4.3) the retry loop snapshots the attempt with
the lowest failure count seen, so the snapshot of the collection's
coloring state is (a copy of) the current colors list. -/
def snapshotColors (colors : List (Option ℕ)) : List (Option ℕ) := colors

/-- One building step of a coloring attempt (`city_map.py` lines
278–289): the source builds `list(range(palette_length))` and removes
every neighbor's current `color_id` found in it; since the range has no
duplicates this is the filter below.  If nothing remains the failure
counter is incremented and the building stays uncolored, otherwise a
randomly chosen remaining id is assigned (`outline_color_id` is set to
the same value and is not tracked separately). -/
def colorStep (palette : ℕ) (adj : ℕ → List ℕ) (pick : ℕ)
    (st : List (Option ℕ) × ℕ) (b : ℕ) : List (Option ℕ) × ℕ :=
  let availableColors := (List.range palette).filter
    (fun c => (adj b).all (fun m => st.1.getD m none != some c))
  if availableColors.isEmpty then (st.1, st.2 + 1)
  else (st.1.set b (some (availableColors.getD (pick % availableColors.length) 0)), st.2)

/-- The reset loop at the top of each attempt (`city_map.py` lines
274–276): every building of the processed list gets `color_id = None`. -/
def resetColors (colors : List (Option ℕ)) (order : List ℕ) : List (Option ℕ) :=
  order.foldl (fun cs b => cs.set b none) colors

/-- One attempt of `_assignColors` (the body of the retry loop): reset,
then color each building of `order` in a single left-to-right pass;
`pick i` supplies the `random.choice` value for the building at position
`i`.  Returns the colors after the pass and the attempt's failure
count. -/
def runAttempt (palette : ℕ) (adj : ℕ → List ℕ) (order : List ℕ) (pick : ℕ → ℕ)
    (colors0 : List (Option ℕ)) : List (Option ℕ) × ℕ :=
  (order.enum).foldl (fun st p => colorStep palette adj (pick p.1) st p.2)
    (resetColors colors0 order, 0)

/-- The retry loop of `_assignColors` (`city_map.py` lines 271–299):
`x` is the current attempt index, `colors` the live coloring state
threaded through attempts, `bestFails`/`best` the best failure count and
snapshot so far.  A snapshot is taken exactly when the attempt's failure
count is strictly lower than the best seen; the loop stops early on a
zero-failure attempt. -/
def assignColorsGo (palette : ℕ) (adj : ℕ → List ℕ) (order : List ℕ)
    (rng : ℕ → ℕ → ℕ) : ℕ → ℕ → List (Option ℕ) → ℕ → List (Option ℕ) →
      ℕ × List (Option ℕ)
  | 0, _, _, bestFails, best => (bestFails, best)
  | fuel + 1, x, colors, bestFails, best =>
    let attempt := runAttempt palette adj order (rng x) colors
    let newBest : ℕ × List (Option ℕ) :=
      if attempt.2 < bestFails then (attempt.2, snapshotColors attempt.1)
      else (bestFails, best)
    if attempt.2 = 0 then newBest
    else assignColorsGo palette adj order rng fuel (x + 1) attempt.1 newBest.1 newBest.2

/-- Embeds `CityMap._assignColors(buildings, max_retries)`: run up to
`maxRetries` attempts starting from the live colors `colors0`;
`best_fails` starts at `len(buildings)` and `best_buildings` at the empty
list.  Returns `(best_fails, best_buildings)`. -/
def assignColors (palette : ℕ) (adj : ℕ → List ℕ) (rng : ℕ → ℕ → ℕ)
    (maxRetries : ℕ) (buildings : List ℕ) (colors0 : List (Option ℕ)) :
    ℕ × List (Option ℕ) :=
  assignColorsGo palette adj buildings rng maxRetries 0 colors0 buildings.length []

/-- The coloring state before attempt `k` (state `0` is the state on
entry; attempt `k` uses the randomness `rng k`). -/
def attemptStates (palette : ℕ) (adj : ℕ → List ℕ) (order : List ℕ)
    (rng : ℕ → ℕ → ℕ) (colors0 : List (Option ℕ)) : ℕ → List (Option ℕ)
  | 0 => colors0
  | k + 1 =>
    (runAttempt palette adj order (rng k)
      (attemptStates palette adj order rng colors0 k)).1

/-- The failure count of attempt `k`. -/
def attemptFails (palette : ℕ) (adj : ℕ → List ℕ) (order : List ℕ)
    (rng : ℕ → ℕ → ℕ) (colors0 : List (Option ℕ)) (k : ℕ) : ℕ :=
  (runAttempt palette adj order (rng k)
    (attemptStates palette adj order rng colors0 k)).2

/-- Python's stable descending sort `sorted(self._buildings, key=lambda
b: len(b.neighbors), reverse=True)` (`city_map.py` lines 325–329):
insertion sort placing each element before the first earlier-sorted
element whose key is not larger, which keeps equal keys in input order. -/
def insertDescBy (key : ℕ → ℕ) (x : ℕ) : List ℕ → List ℕ
  | [] => [x]
  | y :: ys => if key y ≤ key x then x :: y :: ys else y :: insertDescBy key x ys

/-- Stable sort by descending key (see `insertDescBy`). -/
def sortDescBy (key : ℕ → ℕ) : List ℕ → List ℕ
  | [] => []
  | x :: xs => insertDescBy key x (sortDescBy key xs)

/-- Embeds `CityMap._pickBuildingsColors` (`city_map.py` lines 304–339), after
the early return for unresolved neighbor sets: line 325 computes the
buildings sorted by descending neighbor count into the local `buildings`,
but line 333 then calls `self._assignColors(self._buildings)` — the
UNSORTED collection; the sorted list is only used for a log message.  The
embedding keeps both: `_sortedBuildings` is computed and discarded
exactly as in the source. -/
def pickBuildingsColors (palette : ℕ) (adj : ℕ → List ℕ) (rng : ℕ → ℕ → ℕ)
    (maxRetries : ℕ) (buildings : List ℕ) (colors0 : List (Option ℕ)) :
    ℕ × List (Option ℕ) :=
  let _sortedBuildings := sortDescBy (fun b => (adj b).length) buildings
  assignColors palette adj rng maxRetries buildings colors0

/-- The list `_assignColors` iterates over — i.e. the order in which
buildings are colored — as passed by `_pickBuildingsColors` at
`city_map.py:333`: it is `self._buildings`, the unsorted collection. -/
def coloringOrderUsed (buildings : List ℕ) : List ℕ := buildings

/-- The fill index chosen by `_drawBuildings` for one building
(`city_map.py` lines 436–446): a building with `color_id = None` gets a
random valid index `random.randint(0, palette_length - 1)` (embedded as
`r % palette`), a colored building uses its `color_id`. -/
def buildingFillIndex (palette : ℕ) (r : ℕ) : Option ℕ → ℕ
  | none => r % palette
  | some c => c

/-- The fill indices `_drawBuildings` uses for the whole collection
(`r i` is the randomness for building `i`). -/
def drawBuildingsFills (palette : ℕ) (r : ℕ → ℕ) (colors : List (Option ℕ)) :
    List ℕ :=
  (colors.enum).map (fun p => buildingFillIndex palette (r p.1) p.2)

/-! ### Small list-state helper lemmas for the coloring proofs -/

theorem getD_set_self_opt (l : List (Option ℕ)) (i : ℕ) (v : Option ℕ)
    (h : i < l.length) : (l.set i v).getD i none = v := by
  simp [List.getElem?_set_self h]

theorem getD_set_ne_opt (l : List (Option ℕ)) {i j : ℕ} (v : Option ℕ)
    (h : i ≠ j) : (l.set i v).getD j none = l.getD j none := by
  simp [List.getElem?_set_ne h]

theorem getD_none_of_allNone {l : List (Option ℕ)} (h : ∀ x ∈ l, x = none)
    (m : ℕ) : l.getD m none = none := by
  rcases Nat.lt_or_ge m l.length with hm | hm
  · have := List.getElem_mem (l := l) (n := m) hm
    simp only [List.getD_eq_getElem?_getD, List.getElem?_eq_getElem hm]
    exact h _ this
  · simp [List.getD_eq_getElem?_getD, List.getElem?_eq_none hm]

theorem resetColors_allNone {l : List (Option ℕ)} (order : List ℕ)
    (h : ∀ x ∈ l, x = none) : ∀ x ∈ resetColors l order, x = none := by
  induction order generalizing l with
  | nil => exact h
  | cons b bs ih =>
    refine ih (l := l.set b none) ?_
    intro x hx
    rcases List.mem_or_eq_of_mem_set hx with hx | rfl
    · exact h x hx
    · rfl

theorem resetColors_length (l : List (Option ℕ)) (order : List ℕ) :
    (resetColors l order).length = l.length := by
  induction order generalizing l with
  | nil => rfl
  | cons b bs ih => simpa [resetColors] using ih (l := l.set b none)

theorem exists_mem_enum {l : List ℕ} {b : ℕ} (h : b ∈ l) :
    ∃ k, (k, b) ∈ l.enum := by
  obtain ⟨i, hi, hget⟩ := List.mem_iff_getElem.mp h
  refine ⟨i, List.mk_mem_enum_iff_getElem?.mpr ?_⟩
  rw [List.getElem?_eq_getElem hi, hget]

/-- Proof-side invariant: the partial coloring has no conflict between two
already-colored buildings. -/
def ProperPartial (adj : ℕ → List ℕ) (cs : List (Option ℕ)) : Prop :=
  ∀ i j, j ∈ adj i →
    cs.getD i none = none ∨ cs.getD j none = none
      ∨ cs.getD i none ≠ cs.getD j none

theorem colorPass_props (palette : ℕ) (adj : ℕ → List ℕ) (pick : ℕ → ℕ)
    (hsym : ∀ i j, j ∈ adj i → i ∈ adj j) (hirr : ∀ i, i ∉ adj i) :
    ∀ (l : List (ℕ × ℕ)) (cs : List (Option ℕ)) (f : ℕ),
      ProperPartial adj cs →
      (((l.foldl (fun st p => colorStep palette adj (pick p.1) st p.2)
          (cs, f)).1.length = cs.length)
        ∧ f ≤ (l.foldl (fun st p => colorStep palette adj (pick p.1) st p.2) (cs, f)).2
        ∧ (∀ m, cs.getD m none ≠ none →
            (l.foldl (fun st p => colorStep palette adj (pick p.1) st p.2)
              (cs, f)).1.getD m none ≠ none)
        ∧ ProperPartial adj
            (l.foldl (fun st p => colorStep palette adj (pick p.1) st p.2) (cs, f)).1
        ∧ ((l.foldl (fun st p => colorStep palette adj (pick p.1) st p.2) (cs, f)).2 = f →
            ∀ p ∈ l, p.2 < cs.length →
              (l.foldl (fun st p => colorStep palette adj (pick p.1) st p.2)
                (cs, f)).1.getD p.2 none ≠ none)) := by
  intro l
  induction l with
  | nil =>
    intro cs f hinv
    exact ⟨rfl, Nat.le_refl f, fun m hm => hm, hinv, fun _ p hp => absurd hp (by simp)⟩
  | cons p l ih =>
    intro cs f hinv
    obtain ⟨k, b⟩ := p
    simp only [List.foldl_cons]
    rcases hav : ((List.range palette).filter
        (fun c => (adj b).all (fun m => cs.getD m none != some c))).isEmpty with _ | _
    -- case: some color is available, the building is colored
    case false =>
      set avail := (List.range palette).filter
        (fun c => (adj b).all (fun m => cs.getD m none != some c)) with havail
      have havne : avail ≠ [] := by
        intro hnil
        rw [hnil] at hav
        simp at hav
      have hlenpos : 0 < avail.length := List.length_pos.mpr havne
      set c := avail.getD (pick k % avail.length) 0 with hc
      have hcmem : c ∈ avail := by
        rw [hc]
        have hidx : pick k % avail.length < avail.length := Nat.mod_lt _ hlenpos
        simp only [List.getD_eq_getElem?_getD, List.getElem?_eq_getElem hidx]
        exact List.getElem_mem hidx
      have hcavoid : ∀ m ∈ adj b, cs.getD m none ≠ some c := by
        intro m hm
        have hfil := List.of_mem_filter hcmem
        have := List.all_eq_true.mp hfil m hm
        simpa using this
      have hstep : colorStep palette adj (pick k) (cs, f) b
          = (cs.set b (some c), f) := by
        rw [colorStep]
        simp only [← havail, hav, Bool.false_eq_true, if_false]
      rw [hstep]
      by_cases hb : b < cs.length
      · have hinv2 : ProperPartial adj (cs.set b (some c)) := by
          intro i j hij
          by_cases hi : i = b
          · subst hi
            have hjne : j ≠ i := by
              intro hji
              exact hirr i (hji ▸ hij)
            rw [getD_set_self_opt cs i (some c) hb,
              getD_set_ne_opt cs (some c) (fun h => hjne h.symm)]
            have hav2 := hcavoid j hij
            right
            right
            intro hcontra
            exact hav2 hcontra.symm
          · by_cases hj : j = b
            · subst hj
              have hji : i ∈ adj j := hsym i j hij
              rw [getD_set_self_opt cs j (some c) hb,
                getD_set_ne_opt cs (some c) (fun h => hi h.symm)]
              have hav2 := hcavoid i hji
              rcases hcs : cs.getD i none with _ | v
              · exact Or.inl rfl
              · right
                right
                rw [hcs] at hav2
                simpa using fun hvz => hav2 (by rw [hvz])
            · rw [getD_set_ne_opt cs (some c) (fun h => hi h.symm),
                getD_set_ne_opt cs (some c) (fun h => hj h.symm)]
              exact hinv i j hij
        obtain ⟨ihlen, ihle, ihpres, ihinv, ihzero⟩ := ih (cs.set b (some c)) f hinv2
        refine ⟨by simpa using ihlen, ihle, ?_, ihinv, ?_⟩
        · intro m hm
          refine ihpres m ?_
          by_cases hmb : m = b
          · subst hmb
            rw [getD_set_self_opt cs m (some c) hb]
            simp
          · rw [getD_set_ne_opt cs (some c) (fun h => hmb h.symm)]
            exact hm
        · intro hzero q hq hqlt
          rcases List.mem_cons.mp hq with rfl | hq
          · refine ihpres b ?_
            rw [getD_set_self_opt cs b (some c) hb]
            simp
          · exact ihzero hzero q hq (by simpa using hqlt)
      · -- out-of-range set is a no-op; the state is unchanged
        have hnoop : cs.set b (some c) = cs :=
          List.set_eq_of_length_le (Nat.le_of_not_lt hb)
        rw [hnoop]
        obtain ⟨ihlen, ihle, ihpres, ihinv, ihzero⟩ := ih cs f hinv
        refine ⟨ihlen, ihle, ihpres, ihinv, ?_⟩
        intro hzero q hq hqlt
        rcases List.mem_cons.mp hq with rfl | hq
        · exact absurd hqlt hb
        · exact ihzero hzero q hq hqlt
    -- case: no color is available, the failure counter is incremented
    case true =>
      have hstep : colorStep palette adj (pick k) (cs, f) b = (cs, f + 1) := by
        rw [colorStep]
        simp only [hav, if_true]
      rw [hstep]
      obtain ⟨ihlen, ihle, ihpres, ihinv, ihzero⟩ := ih cs (f + 1) hinv
      refine ⟨ihlen, Nat.le_trans (Nat.le_succ f) ihle, ihpres, ihinv, ?_⟩
      intro hzero
      omega

/-- Adjacency used by the C2 counterexample: building 1 is registered as
a neighbor of building 0 but not conversely.  Such asymmetric neighbor
sets do arise from `_assignNeighbors` (see
`assignNeighbors_asymmetric_pair`). -/
def asymAdj : ℕ → List ℕ := fun i => if i = 0 then [1] else []

/-- C2, counterexample: an attempt of `_assignColors` on two buildings
with the asymmetric neighbor relation `asymAdj` finishes with zero
failures yet assigns both buildings the same color: building 0 is colored
first (its neighbor, building 1, is still uncolored so no color is
excluded), then building 1 (no registered neighbors) picks the same
color.  The claim's conclusion `color_id(A) ≠ color_id(B)` fails for
A = building 1 ∈ neighbors(building 0). -/
theorem attempt_zero_fails_not_proper :
    (runAttempt 4 asymAdj [0, 1] (fun _ => 0) [none, none]).2 = 0
      ∧ 1 ∈ asymAdj 0
      ∧ (runAttempt 4 asymAdj [0, 1] (fun _ => 0) [none, none]).1.getD 1 none
        = (runAttempt 4 asymAdj [0, 1] (fun _ => 0) [none, none]).1.getD 0 none
      ∧ (runAttempt 4 asymAdj [0, 1] (fun _ => 0) [none, none]).1.getD 0 none
        = some 0 := by
  decide

/-- C2, amended (claim id C2): PROVIDED the neighbor relation is
symmetric and irreflexive on the collection — which the spec intends but
the code does not guarantee, see C1 — every coloring attempt of
`_assignColors` that finishes with zero failures is a proper coloring:
every building of the collection is colored and, whenever building `j` is
in building `i`'s neighbor set, their colors differ. -/
theorem attempt_zero_fails_proper (palette n : ℕ) (adj : ℕ → List ℕ)
    (order : List ℕ) (pick : ℕ → ℕ)
    (hsym : ∀ i j, j ∈ adj i → i ∈ adj j) (hirr : ∀ i, i ∉ adj i)
    (horder : ∀ b ∈ order, b < n)
    (hz : (runAttempt palette adj order pick (List.replicate n none)).2 = 0) :
    ∀ i ∈ order, ∀ j ∈ adj i, j ∈ order →
      (runAttempt palette adj order pick (List.replicate n none)).1.getD i none ≠ none
        ∧ (runAttempt palette adj order pick (List.replicate n none)).1.getD j none
          ≠ (runAttempt palette adj order pick (List.replicate n none)).1.getD i none := by
  intro i hi j hj hjo
  have hresnone : ∀ x ∈ resetColors (List.replicate n none) order, x = none :=
    resetColors_allNone order (by simp)
  have hreslen : (resetColors (List.replicate n none) order).length = n := by
    rw [resetColors_length]
    simp
  have hinv0 : ProperPartial adj (resetColors (List.replicate n none) order) :=
    fun a b _ => Or.inl (getD_none_of_allNone hresnone a)
  obtain ⟨hlen, hle, hpres, hinv, hzero⟩ :=
    colorPass_props palette adj pick hsym hirr (order.enum)
      (resetColors (List.replicate n none) order) 0 hinv0
  have hra : runAttempt palette adj order pick (List.replicate n none)
      = (order.enum).foldl (fun st p => colorStep palette adj (pick p.1) st p.2)
          (resetColors (List.replicate n none) order, 0) := rfl
  rw [hra] at hz ⊢
  have hcolored : ∀ b ∈ order,
      ((order.enum).foldl (fun st p => colorStep palette adj (pick p.1) st p.2)
        (resetColors (List.replicate n none) order, 0)).1.getD b none ≠ none := by
    intro b hb
    obtain ⟨k, hk⟩ := exists_mem_enum hb
    exact hzero hz (k, b) hk (by rw [hreslen]; exact horder b hb)
  refine ⟨hcolored i hi, ?_⟩
  rcases hinv i j hj with h | h | h
  · exact absurd h (hcolored i hi)
  · exact absurd h (hcolored j hjo)
  · exact fun heq => h heq.symm

/-- The path graph 0 – 1 – 2: building 1 has two neighbors, buildings 0
and 2 have one each.  Symmetric and irreflexive. -/
def pathAdj : ℕ → List ℕ := fun i =>
  if i = 0 then [1] else if i = 1 then [0, 2] else if i = 2 then [1] else []

/-- Witness for the amended C2 on the path graph, three buildings in
order, palette of 4, deterministic randomness. -/
theorem attempt_zero_fails_proper_witness :
    ((∀ i j, j ∈ pathAdj i → i ∈ pathAdj j) ∧ (∀ i, i ∉ pathAdj i)
        ∧ (∀ b ∈ [0, 1, 2], b < 3)
        ∧ (runAttempt 4 pathAdj [0, 1, 2] (fun _ => 0) (List.replicate 3 none)).2 = 0)
      ∧ ∀ i ∈ [0, 1, 2], ∀ j ∈ pathAdj i, j ∈ [0, 1, 2] →
          (runAttempt 4 pathAdj [0, 1, 2] (fun _ => 0) (List.replicate 3 none)).1.getD
              i none ≠ none
            ∧ (runAttempt 4 pathAdj [0, 1, 2] (fun _ => 0)
                  (List.replicate 3 none)).1.getD j none
              ≠ (runAttempt 4 pathAdj [0, 1, 2] (fun _ => 0)
                  (List.replicate 3 none)).1.getD i none := by
  have hsym : ∀ i j, j ∈ pathAdj i → i ∈ pathAdj j := by
    intro i j hij
    unfold pathAdj at hij ⊢
    split_ifs at hij
    · simp_all
    · simp only [List.mem_cons, List.not_mem_nil, or_false] at hij
      rcases hij with rfl | rfl <;> simp_all
    · simp_all
    · simp at hij
  have hirr : ∀ i, i ∉ pathAdj i := by
    intro i
    unfold pathAdj
    split_ifs <;> simp_all
  exact ⟨⟨hsym, hirr, by decide, by decide⟩,
    attempt_zero_fails_proper 4 3 pathAdj [0, 1, 2] (fun _ => 0) hsym hirr
      (by decide) (by decide)⟩

/-- C4 (code_bug evidence): `_pickBuildingsColors` computes the
most-constrained-first order (descending neighbor count) but then passes
the UNSORTED collection to `_assignColors`, so buildings are colored in
input order.  On the path graph with input order `[0, 1, 2]`: the sorted
order would be `[1, 0, 2]`; the order actually used is `[0, 1, 2]`, in
which building 0 (one neighbor) is colored before building 1 (two
neighbors) although building 1 is strictly more constrained — violating
the claimed most-constrained-first order.  The coloring outcome is
observably different from what the sorted order would give. -/
theorem pickBuildingsColors_ignores_sort :
    sortDescBy (fun b => (pathAdj b).length) [0, 1, 2] = [1, 0, 2]
      ∧ coloringOrderUsed [0, 1, 2] = [0, 1, 2]
      ∧ (pathAdj 1).length > (pathAdj 0).length
      ∧ pickBuildingsColors 4 pathAdj (fun _ _ => 0) 100 [0, 1, 2]
          (List.replicate 3 none)
        = assignColors 4 pathAdj (fun _ _ => 0) 100 [0, 1, 2] (List.replicate 3 none)
      ∧ pickBuildingsColors 4 pathAdj (fun _ _ => 0) 100 [0, 1, 2]
          (List.replicate 3 none) = (0, [some 0, some 1, some 0])
      ∧ assignColors 4 pathAdj (fun _ _ => 0) 100
          (sortDescBy (fun b => (pathAdj b).length) [0, 1, 2])
          (List.replicate 3 none) = (0, [some 1, some 0, some 1]) :=
  ⟨by decide, rfl, by decide, rfl, by decide, by decide⟩

/-! ### Lemmas about the retry loop (claims C3 and C8) -/

theorem colorStep_fails_le (palette : ℕ) (adj : ℕ → List ℕ) (pick : ℕ)
    (st : List (Option ℕ) × ℕ) (b : ℕ) :
    (colorStep palette adj pick st b).2 ≤ st.2 + 1 := by
  rw [colorStep]
  split <;> simp

theorem colorPass_fails_le (palette : ℕ) (adj : ℕ → List ℕ) (pick : ℕ → ℕ) :
    ∀ (l : List (ℕ × ℕ)) (st : List (Option ℕ) × ℕ),
      (l.foldl (fun st p => colorStep palette adj (pick p.1) st p.2) st).2
        ≤ st.2 + l.length := by
  intro l
  induction l with
  | nil => intro st; simp
  | cons p l ih =>
    intro st
    simp only [List.foldl_cons, List.length_cons]
    have h1 := ih (colorStep palette adj (pick p.1) st p.2)
    have h2 := colorStep_fails_le palette adj (pick p.1) st p.2
    omega

theorem colorPass_getD_untouched (palette : ℕ) (adj : ℕ → List ℕ) (pick : ℕ → ℕ) :
    ∀ (l : List (ℕ × ℕ)) (st : List (Option ℕ) × ℕ) (m : ℕ), (∀ p ∈ l, p.2 ≠ m) →
      ((l.foldl (fun st p => colorStep palette adj (pick p.1) st p.2) st).1).getD m none
        = st.1.getD m none := by
  intro l
  induction l with
  | nil => intro st m _; rfl
  | cons p l ih =>
    intro st m hm
    simp only [List.foldl_cons]
    rw [ih _ m (fun q hq => hm q (List.mem_cons_of_mem p hq))]
    rw [colorStep]
    split
    · rfl
    · exact getD_set_ne_opt st.1 _ (fun h => hm p (List.mem_cons_self p l) h)

theorem getD_set_none_self (l : List (Option ℕ)) (i : ℕ) :
    (l.set i none).getD i none = none := by
  rcases Nat.lt_or_ge i l.length with h | h
  · exact getD_set_self_opt l i none h
  · rw [List.set_eq_of_length_le h]
    simp [List.getD_eq_getElem?_getD, List.getElem?_eq_none h]

theorem resetColors_getD_not_mem (cs : List (Option ℕ)) (order : List ℕ) (m : ℕ)
    (h : m ∉ order) : (resetColors cs order).getD m none = cs.getD m none := by
  induction order generalizing cs with
  | nil => rfl
  | cons b rest ih =>
    have hm : m ∉ rest := fun hr => h (List.mem_cons_of_mem b hr)
    have hb : b ≠ m := fun hbm => h (hbm ▸ List.mem_cons_self b rest)
    show (resetColors (cs.set b none) rest).getD m none = cs.getD m none
    rw [ih (cs.set b none) hm, getD_set_ne_opt cs none hb]

theorem resetColors_getD_mem (cs : List (Option ℕ)) (order : List ℕ) (m : ℕ)
    (h : m ∈ order) : (resetColors cs order).getD m none = none := by
  induction order generalizing cs with
  | nil => exact absurd h (List.not_mem_nil m)
  | cons b rest ih =>
    show (resetColors (cs.set b none) rest).getD m none = none
    by_cases hm : m ∈ rest
    · exact ih (cs.set b none) hm
    · have hb : m = b := by
        rcases List.mem_cons.mp h with hb | hr
        · exact hb
        · exact absurd hr hm
      subst hb
      rw [resetColors_getD_not_mem (cs.set m none) rest m hm]
      exact getD_set_none_self cs m

theorem attemptStates_offNone (palette : ℕ) (adj : ℕ → List ℕ) (order : List ℕ)
    (rng : ℕ → ℕ → ℕ) (colors0 : List (Option ℕ))
    (hc0 : ∀ m, colors0.getD m none = none) :
    ∀ k m, m ∉ order →
      (attemptStates palette adj order rng colors0 k).getD m none = none := by
  intro k
  induction k with
  | zero => intro m _; exact hc0 m
  | succ k ih =>
    intro m hm
    show ((order.enum).foldl
        (fun st p => colorStep palette adj (rng k p.1) st p.2)
        (resetColors (attemptStates palette adj order rng colors0 k) order, 0)).1.getD
          m none = none
    rw [colorPass_getD_untouched palette adj (rng k) (order.enum) _ m ?_]
    · rw [resetColors_getD_not_mem _ _ _ hm]
      exact ih m hm
    · intro p hp hpm
      exact hm (hpm ▸ List.snd_mem_of_mem_enum hp)

theorem attemptReset_allNone (palette : ℕ) (adj : ℕ → List ℕ) (order : List ℕ)
    (rng : ℕ → ℕ → ℕ) (colors0 : List (Option ℕ))
    (hc0 : ∀ m, colors0.getD m none = none) :
    ∀ k m,
      (resetColors (attemptStates palette adj order rng colors0 k) order).getD m none
        = none := by
  intro k m
  by_cases hm : m ∈ order
  · exact resetColors_getD_mem _ _ _ hm
  · rw [resetColors_getD_not_mem _ _ _ hm]
    exact attemptStates_offNone palette adj order rng colors0 hc0 k m hm

theorem attemptFails_lt (palette : ℕ) (adj : ℕ → List ℕ) (order : List ℕ)
    (rng : ℕ → ℕ → ℕ) (colors0 : List (Option ℕ))
    (hpal : 0 < palette) (hord : order ≠ [])
    (hc0 : ∀ m, colors0.getD m none = none) :
    ∀ k, attemptFails palette adj order rng colors0 k < order.length := by
  intro k
  rcases horder : order with _ | ⟨b, rest⟩
  · exact absurd horder hord
  subst horder
  show ((((b :: rest).enum).foldl
      (fun st p => colorStep palette adj (rng k p.1) st p.2)
      (resetColors (attemptStates palette adj (b :: rest) rng colors0 k) (b :: rest),
        0)).2) < (b :: rest).length
  rw [List.enum_cons, List.foldl_cons]
  have hreset := attemptReset_allNone palette adj (b :: rest) rng colors0 hc0 k
  have hfirst : colorStep palette adj (rng k 0)
      (resetColors (attemptStates palette adj (b :: rest) rng colors0 k) (b :: rest), 0)
        b
      = ((resetColors (attemptStates palette adj (b :: rest) rng colors0 k)
          (b :: rest)).set b
            (some (((List.range palette).getD
              (rng k 0 % (List.range palette).length) 0))), 0) := by
    rw [colorStep]
    have havail : (List.range palette).filter
        (fun c => (adj b).all
          (fun m =>
            (resetColors (attemptStates palette adj (b :: rest) rng colors0 k)
              (b :: rest)).getD m none != some c)) = List.range palette := by
      apply List.filter_eq_self.mpr
      intro c _
      simp only [List.all_eq_true]
      intro m _
      rw [hreset m]
      simp
    rw [havail]
    have hne : (List.range palette).isEmpty = false := by
      simp [List.isEmpty_iff, List.range_eq_nil]
      omega
    simp only [hne, Bool.false_eq_true, if_false]
  rw [hfirst]
  have hle := colorPass_fails_le palette adj (rng k) (rest.enumFrom 1)
    (((resetColors (attemptStates palette adj (b :: rest) rng colors0 k)
        (b :: rest)).set b
          (some (((List.range palette).getD
            (rng k 0 % (List.range palette).length) 0)))), 0)
  simp only [List.enumFrom_length] at hle
  simpa using Nat.lt_of_le_of_lt hle (by simp)

theorem attemptStates_rng_agree (palette : ℕ) (adj : ℕ → List ℕ) (order : List ℕ)
    (colors0 : List (Option ℕ)) :
    ∀ (K : ℕ) (rng rng2 : ℕ → ℕ → ℕ), (∀ k, k < K → rng k = rng2 k) →
      attemptStates palette adj order rng colors0 K
        = attemptStates palette adj order rng2 colors0 K := by
  intro K
  induction K with
  | zero => intro rng rng2 _; rfl
  | succ K ih =>
    intro rng rng2 h
    show (runAttempt palette adj order (rng K)
        (attemptStates palette adj order rng colors0 K)).1
      = (runAttempt palette adj order (rng2 K)
        (attemptStates palette adj order rng2 colors0 K)).1
    rw [ih rng rng2 (fun k hk => h k (Nat.lt_succ_of_lt hk)), h K (Nat.lt_succ_self K)]

theorem attemptFails_rng_agree (palette : ℕ) (adj : ℕ → List ℕ) (order : List ℕ)
    (colors0 : List (Option ℕ)) (k : ℕ) (rng rng2 : ℕ → ℕ → ℕ)
    (h : ∀ j, j ≤ k → rng j = rng2 j) :
    attemptFails palette adj order rng colors0 k
      = attemptFails palette adj order rng2 colors0 k := by
  show (runAttempt palette adj order (rng k)
      (attemptStates palette adj order rng colors0 k)).2
    = (runAttempt palette adj order (rng2 k)
      (attemptStates palette adj order rng2 colors0 k)).2
  rw [attemptStates_rng_agree palette adj order colors0 k rng rng2
    (fun j hj => h j (Nat.le_of_lt hj)), h k (Nat.le_refl k)]

theorem assignColorsGo_rng_agree (palette : ℕ) (adj : ℕ → List ℕ) (order : List ℕ) :
    ∀ (fuel x : ℕ) (colors : List (Option ℕ)) (bf : ℕ) (best : List (Option ℕ))
      (rng rng2 : ℕ → ℕ → ℕ), (∀ k, x ≤ k → k < x + fuel → rng k = rng2 k) →
      assignColorsGo palette adj order rng fuel x colors bf best
        = assignColorsGo palette adj order rng2 fuel x colors bf best := by
  intro fuel
  induction fuel with
  | zero => intro x colors bf best rng rng2 _; rfl
  | succ fuel ih =>
    intro x colors bf best rng rng2 hagree
    simp only [assignColorsGo]
    rw [hagree x (Nat.le_refl x) (by omega)]
    by_cases hz : (runAttempt palette adj order (rng2 x) colors).2 = 0
    · simp only [hz, if_true]
    · simp only [hz, Bool.false_eq_true, if_false, ite_false]
      exact ih (x + 1) _ _ _ rng rng2 (fun k hk1 hk2 => hagree k (by omega) (by omega))

theorem assignColorsGo_first_zero (palette : ℕ) (adj : ℕ → List ℕ) (order : List ℕ)
    (rng : ℕ → ℕ → ℕ) (colors0 : List (Option ℕ)) :
    ∀ (fuel x bf : ℕ) (best : List (Option ℕ)) (k0 : ℕ),
      0 < bf → x ≤ k0 → k0 < x + fuel →
      attemptFails palette adj order rng colors0 k0 = 0 →
      (∀ k, x ≤ k → k < k0 → attemptFails palette adj order rng colors0 k ≠ 0) →
      assignColorsGo palette adj order rng fuel x
          (attemptStates palette adj order rng colors0 x) bf best
        = (0, attemptStates palette adj order rng colors0 (k0 + 1)) := by
  intro fuel
  induction fuel with
  | zero => intro x bf best k0 _ h1 h2 _ _; omega
  | succ fuel ih =>
    intro x bf best k0 hbf hx hk0 hz hnz
    have hfail : (runAttempt palette adj order (rng x)
        (attemptStates palette adj order rng colors0 x)).2
        = attemptFails palette adj order rng colors0 x := rfl
    have hstate : (runAttempt palette adj order (rng x)
        (attemptStates palette adj order rng colors0 x)).1
        = attemptStates palette adj order rng colors0 (x + 1) := rfl
    simp only [assignColorsGo, hfail, hstate]
    by_cases hxk : x = k0
    · subst hxk
      simp only [hz, if_true, snapshotColors]
      have : (0 : ℕ) < bf := hbf
      simp [this]
    · have hxlt : x < k0 := Nat.lt_of_le_of_ne hx hxk
      have hnzx : attemptFails palette adj order rng colors0 x ≠ 0 :=
        hnz x (Nat.le_refl x) hxlt
      simp only [hnzx, Bool.false_eq_true, if_false, ite_false, snapshotColors]
      by_cases hlt : attemptFails palette adj order rng colors0 x < bf
      · rw [if_pos hlt]
        exact ih (x + 1) _ _ k0 (by omega) (by omega) (by omega) hz
          (fun k hk1 hk2 => hnz k (by omega) hk2)
      · rw [if_neg hlt]
        exact ih (x + 1) bf best k0 hbf (by omega) (by omega) hz
          (fun k hk1 hk2 => hnz k (by omega) hk2)

theorem assignColorsGo_exhaust (palette : ℕ) (adj : ℕ → List ℕ) (order : List ℕ)
    (rng : ℕ → ℕ → ℕ) (colors0 : List (Option ℕ)) :
    ∀ (fuel x bf : ℕ) (best : List (Option ℕ)),
      (∀ k, x ≤ k → k < x + fuel → attemptFails palette adj order rng colors0 k ≠ 0) →
      (assignColorsGo palette adj order rng fuel x
            (attemptStates palette adj order rng colors0 x) bf best = (bf, best)
          ∧ ∀ k, x ≤ k → k < x + fuel →
            bf ≤ attemptFails palette adj order rng colors0 k)
        ∨ (∃ j, x ≤ j ∧ j < x + fuel
            ∧ attemptFails palette adj order rng colors0 j < bf
            ∧ assignColorsGo palette adj order rng fuel x
                (attemptStates palette adj order rng colors0 x) bf best
              = (attemptFails palette adj order rng colors0 j,
                  attemptStates palette adj order rng colors0 (j + 1))
            ∧ (∀ k, x ≤ k → k < x + fuel →
                attemptFails palette adj order rng colors0 j
                  ≤ attemptFails palette adj order rng colors0 k)
            ∧ ∀ k, x ≤ k → k < j →
                attemptFails palette adj order rng colors0 j
                  < attemptFails palette adj order rng colors0 k) := by
  intro fuel
  induction fuel with
  | zero =>
    intro x bf best _
    exact Or.inl ⟨rfl, fun k h1 h2 => by omega⟩
  | succ fuel ih =>
    intro x bf best hnz
    have hfail : (runAttempt palette adj order (rng x)
        (attemptStates palette adj order rng colors0 x)).2
        = attemptFails palette adj order rng colors0 x := rfl
    have hstate : (runAttempt palette adj order (rng x)
        (attemptStates palette adj order rng colors0 x)).1
        = attemptStates palette adj order rng colors0 (x + 1) := rfl
    have hnzx : attemptFails palette adj order rng colors0 x ≠ 0 :=
      hnz x (Nat.le_refl x) (by omega)
    simp only [assignColorsGo, hfail, hstate, hnzx, Bool.false_eq_true, if_false,
      ite_false, snapshotColors]
    by_cases hlt : attemptFails palette adj order rng colors0 x < bf
    · rw [if_pos hlt]
      rcases ih (x + 1) (attemptFails palette adj order rng colors0 x)
          (attemptStates palette adj order rng colors0 (x + 1))
          (fun k h1 h2 => hnz k (by omega) (by omega)) with
        ⟨heq, hmin⟩ | ⟨j, hj1, hj2, hj3, hj4, hj5, hj6⟩
      · refine Or.inr ⟨x, Nat.le_refl x, by omega, hlt, heq, ?_, ?_⟩
        · intro k hk1 hk2
          rcases Nat.eq_or_lt_of_le hk1 with rfl | hk1'
          · exact Nat.le_refl _
          · exact hmin k hk1' (by omega)
        · intro k hk1 hk2
          omega
      · refine Or.inr ⟨j, by omega, by omega, by omega, hj4, ?_, ?_⟩
        · intro k hk1 hk2
          rcases Nat.eq_or_lt_of_le hk1 with rfl | hk1'
          · exact Nat.le_of_lt hj3
          · exact hj5 k hk1' (by omega)
        · intro k hk1 hk2
          rcases Nat.eq_or_lt_of_le hk1 with rfl | hk1'
          · exact hj3
          · exact hj6 k hk1' hk2
    · rw [if_neg hlt]
      rcases ih (x + 1) bf best (fun k h1 h2 => hnz k (by omega) (by omega)) with
        ⟨heq, hmin⟩ | ⟨j, hj1, hj2, hj3, hj4, hj5, hj6⟩
      · refine Or.inl ⟨heq, ?_⟩
        intro k hk1 hk2
        rcases Nat.eq_or_lt_of_le hk1 with rfl | hk1'
        · omega
        · exact hmin k hk1' (by omega)
      · refine Or.inr ⟨j, by omega, by omega, hj3, hj4, ?_, ?_⟩
        · intro k hk1 hk2
          rcases Nat.eq_or_lt_of_le hk1 with rfl | hk1'
          · omega
          · exact hj5 k hk1' (by omega)
        · intro k hk1 hk2
          rcases Nat.eq_or_lt_of_le hk1 with rfl | hk1'
          · omega
          · exact hj6 k hk1' hk2

/-- C3: the retry policy of `_assignColors` on a non-empty building list
with at least one attempt and a non-empty palette (the program's palettes
have at least 4 entries), starting from the initial all-`None` color
state: (1) the result depends only on the randomness of the at most
`maxRetries` attempts actually within the budget; (2) if attempt `k0` is
the first with zero failures, the loop stops there — the result is
`(0, snapshot of attempt k0)` and depends only on the randomness of
attempts `0..k0`; (3) if no attempt within the budget has zero failures,
the result is the failure count and snapshot of the FIRST attempt
attaining the lowest failure count seen across all `maxRetries`
attempts.  The snapshot copy is spec-modelled (`snapshotColors`), since
`Data` declares no `copy` method in the sources. -/
theorem assignColors_retry_policy (palette : ℕ) (adj : ℕ → List ℕ)
    (rng : ℕ → ℕ → ℕ) (maxRetries n : ℕ) (order : List ℕ)
    (hord : order ≠ []) (hmax : 1 ≤ maxRetries) (hpal : 1 ≤ palette) :
    (∀ rng2 : ℕ → ℕ → ℕ, (∀ k, k < maxRetries → rng k = rng2 k) →
        assignColors palette adj rng2 maxRetries order (List.replicate n none)
          = assignColors palette adj rng maxRetries order (List.replicate n none))
      ∧ (∀ k0, k0 < maxRetries →
          attemptFails palette adj order rng (List.replicate n none) k0 = 0 →
          (∀ k, k < k0 →
            attemptFails palette adj order rng (List.replicate n none) k ≠ 0) →
          assignColors palette adj rng maxRetries order (List.replicate n none)
              = (0, attemptStates palette adj order rng (List.replicate n none) (k0 + 1))
            ∧ ∀ rng2 : ℕ → ℕ → ℕ, (∀ k, k ≤ k0 → rng k = rng2 k) →
                assignColors palette adj rng2 maxRetries order (List.replicate n none)
                  = assignColors palette adj rng maxRetries order
                      (List.replicate n none))
      ∧ ((∀ k, k < maxRetries →
            attemptFails palette adj order rng (List.replicate n none) k ≠ 0) →
          ∃ j, j < maxRetries
            ∧ assignColors palette adj rng maxRetries order (List.replicate n none)
                = (attemptFails palette adj order rng (List.replicate n none) j,
                    attemptStates palette adj order rng (List.replicate n none) (j + 1))
            ∧ (∀ k, k < maxRetries →
                attemptFails palette adj order rng (List.replicate n none) j
                  ≤ attemptFails palette adj order rng (List.replicate n none) k)
            ∧ ∀ k, k < j →
                attemptFails palette adj order rng (List.replicate n none) j
                  < attemptFails palette adj order rng (List.replicate n none) k) := by
  have hc0 : ∀ m, (List.replicate n (none : Option ℕ)).getD m none = none := by
    intro m
    exact getD_none_of_allNone (fun x hx => List.eq_of_mem_replicate hx) m
  have hbf : 0 < order.length := List.length_pos.mpr hord
  refine ⟨?_, ?_, ?_⟩
  · intro rng2 hagree
    exact assignColorsGo_rng_agree palette adj order maxRetries 0
      (List.replicate n none) order.length [] rng2 rng
      (fun k _ hk2 => (hagree k (by omega)).symm)
  · intro k0 hk0 hz hnz
    have hmain : assignColors palette adj rng maxRetries order (List.replicate n none)
        = (0, attemptStates palette adj order rng (List.replicate n none) (k0 + 1)) :=
      assignColorsGo_first_zero palette adj order rng (List.replicate n none)
        maxRetries 0 order.length [] k0 hbf (Nat.zero_le k0) (by omega) hz
        (fun k _ hk2 => hnz k hk2)
    refine ⟨hmain, ?_⟩
    intro rng2 hagree
    have hz2 : attemptFails palette adj order rng2 (List.replicate n none) k0 = 0 := by
      rw [← attemptFails_rng_agree palette adj order (List.replicate n none) k0 rng rng2
        (fun j hj => hagree j hj)]
      exact hz
    have hnz2 : ∀ k, k < k0 →
        attemptFails palette adj order rng2 (List.replicate n none) k ≠ 0 := by
      intro k hk
      rw [← attemptFails_rng_agree palette adj order (List.replicate n none) k rng rng2
        (fun j hj => hagree j (by omega))]
      exact hnz k hk
    have hmain2 : assignColors palette adj rng2 maxRetries order (List.replicate n none)
        = (0, attemptStates palette adj order rng2 (List.replicate n none) (k0 + 1)) :=
      assignColorsGo_first_zero palette adj order rng2 (List.replicate n none)
        maxRetries 0 order.length [] k0 hbf (Nat.zero_le k0) (by omega) hz2
        (fun k _ hk2 => hnz2 k hk2)
    rw [hmain2, hmain,
      attemptStates_rng_agree palette adj order (List.replicate n none) (k0 + 1) rng2 rng
        (fun k hk => (hagree k (by omega)).symm)]
  · intro hnz
    rcases assignColorsGo_exhaust palette adj order rng (List.replicate n none)
        maxRetries 0 order.length [] (fun k _ hk2 => hnz k (by omega)) with
      ⟨_, hmin⟩ | ⟨j, _, hj2, _, hj4, hj5, hj6⟩
    · have h0 := hmin 0 (Nat.le_refl 0) (by omega)
      have hlt := attemptFails_lt palette adj order rng (List.replicate n none)
        hpal hord hc0 0
      omega
    · exact ⟨j, by omega, hj4, fun k hk => hj5 k (Nat.zero_le k) (by omega),
        fun k hk => hj6 k (Nat.zero_le k) hk⟩

/-- Witness for C3: a single building with no neighbors, palette of 4,
budget of 3 attempts. -/
theorem assignColors_retry_policy_witness :
    (([0] : List ℕ) ≠ [] ∧ 1 ≤ 3 ∧ 1 ≤ 4)
      ∧ ((∀ rng2 : ℕ → ℕ → ℕ, (∀ k, k < 3 → (fun _ _ => 0) k = rng2 k) →
            assignColors 4 (fun _ => []) rng2 3 [0] (List.replicate 1 none)
              = assignColors 4 (fun _ => []) (fun _ _ => 0) 3 [0]
                  (List.replicate 1 none))
        ∧ (∀ k0, k0 < 3 →
            attemptFails 4 (fun _ => []) [0] (fun _ _ => 0) (List.replicate 1 none) k0
              = 0 →
            (∀ k, k < k0 →
              attemptFails 4 (fun _ => []) [0] (fun _ _ => 0)
                (List.replicate 1 none) k ≠ 0) →
            assignColors 4 (fun _ => []) (fun _ _ => 0) 3 [0] (List.replicate 1 none)
                = (0, attemptStates 4 (fun _ => []) [0] (fun _ _ => 0)
                    (List.replicate 1 none) (k0 + 1))
              ∧ ∀ rng2 : ℕ → ℕ → ℕ, (∀ k, k ≤ k0 → (fun _ _ => 0) k = rng2 k) →
                  assignColors 4 (fun _ => []) rng2 3 [0] (List.replicate 1 none)
                    = assignColors 4 (fun _ => []) (fun _ _ => 0) 3 [0]
                        (List.replicate 1 none))
        ∧ ((∀ k, k < 3 →
              attemptFails 4 (fun _ => []) [0] (fun _ _ => 0)
                (List.replicate 1 none) k ≠ 0) →
            ∃ j, j < 3
              ∧ assignColors 4 (fun _ => []) (fun _ _ => 0) 3 [0]
                    (List.replicate 1 none)
                  = (attemptFails 4 (fun _ => []) [0] (fun _ _ => 0)
                      (List.replicate 1 none) j,
                      attemptStates 4 (fun _ => []) [0] (fun _ _ => 0)
                        (List.replicate 1 none) (j + 1))
              ∧ (∀ k, k < 3 →
                  attemptFails 4 (fun _ => []) [0] (fun _ _ => 0)
                      (List.replicate 1 none) j
                    ≤ attemptFails 4 (fun _ => []) [0] (fun _ _ => 0)
                        (List.replicate 1 none) k)
              ∧ ∀ k, k < j →
                  attemptFails 4 (fun _ => []) [0] (fun _ _ => 0)
                      (List.replicate 1 none) j
                    < attemptFails 4 (fun _ => []) [0] (fun _ _ => 0)
                        (List.replicate 1 none) k)) :=
  ⟨⟨by decide, by decide, by decide⟩,
    assignColors_retry_policy 4 (fun _ => []) (fun _ _ => 0) 3 1 [0]
      (by decide) (by decide) (by decide)⟩

/-- Proof-side predicate: every assigned color id is a valid palette
index. -/
def ColorsInPalette (palette : ℕ) (cs : List (Option ℕ)) : Prop :=
  ∀ x ∈ cs, ∀ v, x = some v → v < palette

theorem getD_mod_mem (l : List ℕ) (hl : l ≠ []) (k : ℕ) :
    l.getD (k % l.length) 0 ∈ l := by
  have hlen : 0 < l.length := List.length_pos.mpr hl
  have hidx : k % l.length < l.length := Nat.mod_lt _ hlen
  simp only [List.getD_eq_getElem?_getD, List.getElem?_eq_getElem hidx]
  exact List.getElem_mem hidx

theorem colorStep_inPalette (palette : ℕ) (adj : ℕ → List ℕ) (pick : ℕ)
    (st : List (Option ℕ) × ℕ) (b : ℕ) (h : ColorsInPalette palette st.1) :
    ColorsInPalette palette (colorStep palette adj pick st b).1 := by
  rw [colorStep]
  split
  · exact h
  · intro x hx v hv
    rcases List.mem_or_eq_of_mem_set hx with hx | rfl
    · exact h x hx v hv
    · rename_i hne
      have hnil : ((List.range palette).filter
          (fun c => (adj b).all (fun m => st.1.getD m none != some c))) ≠ [] := by
        intro hcontra
        rw [hcontra] at hne
        simp at hne
      have hmem := getD_mod_mem _ hnil pick
      have hrange := List.mem_range.mp (List.mem_filter.mp hmem).1
      simp only [Option.some.injEq] at hv
      omega

theorem colorPass_inPalette (palette : ℕ) (adj : ℕ → List ℕ) (pick : ℕ → ℕ) :
    ∀ (l : List (ℕ × ℕ)) (st : List (Option ℕ) × ℕ),
      ColorsInPalette palette st.1 →
      ColorsInPalette palette
        ((l.foldl (fun st p => colorStep palette adj (pick p.1) st p.2) st).1) := by
  intro l
  induction l with
  | nil => intro st h; exact h
  | cons p l ih =>
    intro st h
    simp only [List.foldl_cons]
    exact ih _ (colorStep_inPalette palette adj (pick p.1) st p.2 h)

theorem resetColors_inPalette (palette : ℕ) (cs : List (Option ℕ)) (order : List ℕ)
    (h : ColorsInPalette palette cs) :
    ColorsInPalette palette (resetColors cs order) := by
  induction order generalizing cs with
  | nil => exact h
  | cons b rest ih =>
    refine ih (cs.set b none) ?_
    intro x hx v hv
    rcases List.mem_or_eq_of_mem_set hx with hx | rfl
    · exact h x hx v hv
    · exact absurd hv (by simp)

theorem runAttempt_inPalette (palette : ℕ) (adj : ℕ → List ℕ) (order : List ℕ)
    (pick : ℕ → ℕ) (colors0 : List (Option ℕ))
    (h : ColorsInPalette palette colors0) :
    ColorsInPalette palette (runAttempt palette adj order pick colors0).1 :=
  colorPass_inPalette palette adj pick (order.enum) _
    (resetColors_inPalette palette colors0 order h)

theorem attemptStates_inPalette (palette : ℕ) (adj : ℕ → List ℕ) (order : List ℕ)
    (rng : ℕ → ℕ → ℕ) (colors0 : List (Option ℕ))
    (h : ColorsInPalette palette colors0) :
    ∀ k, ColorsInPalette palette (attemptStates palette adj order rng colors0 k) := by
  intro k
  induction k with
  | zero => exact h
  | succ k ih => exact runAttempt_inPalette palette adj order (rng k) _ ih

theorem assignColorsGo_inPalette (palette : ℕ) (adj : ℕ → List ℕ) (order : List ℕ)
    (rng : ℕ → ℕ → ℕ) :
    ∀ (fuel x : ℕ) (colors : List (Option ℕ)) (bf : ℕ) (best : List (Option ℕ)),
      ColorsInPalette palette colors → ColorsInPalette palette best →
      ColorsInPalette palette
        (assignColorsGo palette adj order rng fuel x colors bf best).2 := by
  intro fuel
  induction fuel with
  | zero => intro x colors bf best _ hbest; exact hbest
  | succ fuel ih =>
    intro x colors bf best hcolors hbest
    simp only [assignColorsGo, snapshotColors]
    have hattempt : ColorsInPalette palette
        (runAttempt palette adj order (rng x) colors).1 :=
      runAttempt_inPalette palette adj order (rng x) colors hcolors
    by_cases hlt : (runAttempt palette adj order (rng x) colors).2 < bf
    · rw [if_pos hlt]
      by_cases hz : (runAttempt palette adj order (rng x) colors).2 = 0
      · rw [if_pos hz]
        exact hattempt
      · rw [if_neg hz]
        exact ih (x + 1) _ _ _ hattempt hattempt
    · rw [if_neg hlt]
      by_cases hz : (runAttempt palette adj order (rng x) colors).2 = 0
      · rw [if_pos hz]
        exact hbest
      · rw [if_neg hz]
        exact ih (x + 1) _ _ _ hattempt hbest

theorem assignColors_inPalette (palette : ℕ) (adj : ℕ → List ℕ) (rng : ℕ → ℕ → ℕ)
    (maxRetries n : ℕ) (order : List ℕ) :
    ColorsInPalette palette
      (assignColors palette adj rng maxRetries order (List.replicate n none)).2 :=
  assignColorsGo_inPalette palette adj order rng maxRetries 0 _ order.length []
    (fun x hx v hv => absurd (hv ▸ List.eq_of_mem_replicate hx) (by simp))
    (fun x hx => absurd hx (List.not_mem_nil x))

/-- C8: coloring failures are never fatal in the rendering step: for the
coloring produced by `_assignColors`, `_drawBuildings` computes a fill
for EVERY building; a building whose `color_id` is still unset gets the
fallback index `random.randint(0, palette_length - 1)` — a valid index
into the buildings fill palette — and every fill index used (fallback or
assigned) is within the palette.  `palette_length` is spec-modelled (not
defined under `src/`); `randint`'s bounded value is embedded as
`r i % palette_length`. -/
theorem drawBuildings_fallback_valid (fills : List String) (adj : ℕ → List ℕ)
    (rng : ℕ → ℕ → ℕ) (maxRetries n : ℕ) (order : List ℕ) (r : ℕ → ℕ)
    (colors : List (Option ℕ))
    (hp : 0 < palette_length fills)
    (hcolors : colors
      = (assignColors (palette_length fills) adj rng maxRetries order
          (List.replicate n none)).2) :
    (drawBuildingsFills (palette_length fills) r colors).length = colors.length
      ∧ (∀ i, i < colors.length → colors.getD i none = none →
          (drawBuildingsFills (palette_length fills) r colors).getD i 0
              = r i % palette_length fills
            ∧ r i % palette_length fills < palette_length fills)
      ∧ ∀ f ∈ drawBuildingsFills (palette_length fills) r colors,
          f < palette_length fills := by
  refine ⟨by simp [drawBuildingsFills], ?_, ?_⟩
  · intro i hi hnone
    have hci : colors[i]? = some none := by
      rw [List.getElem?_eq_getElem hi]
      simp only [List.getD_eq_getElem?_getD, List.getElem?_eq_getElem hi,
        Option.getD_some] at hnone
      simp [hnone]
    have hfill : (drawBuildingsFills (palette_length fills) r colors).getD i 0
        = r i % palette_length fills := by
      rw [drawBuildingsFills]
      simp only [List.getD_eq_getElem?_getD, List.getElem?_map, List.getElem?_enum,
        hci]
      rfl
    exact ⟨hfill, Nat.mod_lt _ hp⟩
  · intro f hf
    rw [drawBuildingsFills] at hf
    obtain ⟨p, hp2, rfl⟩ := List.mem_map.mp hf
    have hmem : p.2 ∈ colors := List.snd_mem_of_mem_enum hp2
    rcases hval : p.2 with _ | v
    · exact Nat.mod_lt _ hp
    · have := assignColors_inPalette (palette_length fills) adj rng maxRetries n order
      rw [← hcolors] at this
      have hvlt := this p.2 hmem v hval
      simpa [buildingFillIndex, hval] using hvlt

/-- Witness for C8: the path graph coloring from the C4 example feeds the
drawing step; three buildings, all colored, with a 4-entry palette. -/
theorem drawBuildings_fallback_valid_witness :
    (0 < palette_length ["#ff0000", "#00ff00", "#0000ff", "#ffff00"]
        ∧ ([some 0, some 1, some 0] : List (Option ℕ))
          = (assignColors
              (palette_length ["#ff0000", "#00ff00", "#0000ff", "#ffff00"])
              pathAdj (fun _ _ => 0) 1 [0, 1, 2] (List.replicate 3 none)).2)
      ∧ (drawBuildingsFills (palette_length ["#ff0000", "#00ff00", "#0000ff", "#ffff00"])
            (fun i => i) [some 0, some 1, some 0]).length
          = ([some 0, some 1, some 0] : List (Option ℕ)).length
      ∧ (∀ i, i < ([some 0, some 1, some 0] : List (Option ℕ)).length →
          ([some 0, some 1, some 0] : List (Option ℕ)).getD i none = none →
          (drawBuildingsFills (palette_length ["#ff0000", "#00ff00", "#0000ff", "#ffff00"])
              (fun i => i) [some 0, some 1, some 0]).getD i 0
              = i % palette_length ["#ff0000", "#00ff00", "#0000ff", "#ffff00"]
            ∧ i % palette_length ["#ff0000", "#00ff00", "#0000ff", "#ffff00"]
              < palette_length ["#ff0000", "#00ff00", "#0000ff", "#ffff00"])
      ∧ ∀ f ∈ drawBuildingsFills (palette_length ["#ff0000", "#00ff00", "#0000ff", "#ffff00"])
            (fun i => i) [some 0, some 1, some 0],
          f < palette_length ["#ff0000", "#00ff00", "#0000ff", "#ffff00"] :=
  ⟨⟨by decide, by decide⟩,
    (drawBuildings_fallback_valid ["#ff0000", "#00ff00", "#0000ff", "#ffff00"]
      pathAdj (fun _ _ => 0) 1 3 [0, 1, 2] (fun i => i) [some 0, some 1, some 0]
      (by decide) (by decide))⟩

end CircleCityMaps
